import Mathlib

/-!
Verification development for the bus-route dataset parsing pipeline.

The Python sources are shallowly embedded: Python strings become `List Char`
(`PyStr`), Python floats become IEEE-754 binary64 values represented by their
exact rational value in `ℚ` — decimal parsing (`roundDouble`) and subtraction
(`fsub`) round to nearest, ties to even — and fallible code returns `Option`.  The specific regular expressions used by the sources are
modelled by a small backtracking matcher (`mmatch`) with Python `re`
preference-order semantics (leftmost, greedy/lazy by quantifier, alternation
prefers the left branch); all repetitions in the sources' patterns are over
single-character classes, which the `RE.rep` constructor captures exactly.
-/

abbrev PyStr := List Char

abbrev Groups := List (Nat × PyStr)

/-- Python `\s` / `str.isspace` on the character set relevant to the inputs. -/
def isWs (c : Char) : Bool :=
  c == ' ' || c == '\t' || c == '\n' || c == '\r' || c == '\x0b' || c == '\x0c'

/-- Drop a trailing run of whitespace (the right half of Python `str.strip`). -/
def dropTrailWs : PyStr → PyStr
  | [] => []
  | c :: rest =>
    match dropTrailWs rest with
    | [] => if isWs c then [] else [c]
    | r => c :: r

/-- Python `str.strip()`: remove leading and trailing whitespace. -/
def pyStrip (s : PyStr) : PyStr := dropTrailWs (s.dropWhile isWs)

/-- Python `pat in s` (substring containment). -/
def containsSub (pat : PyStr) : PyStr → Bool
  | [] => pat.isPrefixOf []
  | c :: rest => pat.isPrefixOf (c :: rest) || containsSub pat rest

/-- Worker for Python `s.replace(pat, rep)`: `skip` counts characters of an
already-replaced occurrence still to drop, so the recursion is structural. -/
def pyReplaceGo (pat rep : PyStr) : Nat → PyStr → PyStr
  | _, [] => []
  | n + 1, _ :: rest => pyReplaceGo pat rep n rest
  | 0, c :: rest =>
    if pat.isPrefixOf (c :: rest) = true ∧ pat ≠ [] then
      rep ++ pyReplaceGo pat rep (pat.length - 1) rest
    else
      c :: pyReplaceGo pat rep 0 rest

/-- Python `s.replace(pat, rep)`: replace every non-overlapping occurrence,
scanning left to right.  (The sources only ever call it with nonempty `pat`;
the `pat ≠ []` guard makes the empty-pattern case inert.) -/
def pyReplace (pat rep : PyStr) (s : PyStr) : PyStr := pyReplaceGo pat rep 0 s

/-- Worker for Python `re.sub(r'\s+', ' ', s)`: each maximal whitespace run
becomes a single space.  The flag records whether the previous character was
whitespace (in which case further whitespace emits nothing). -/
def collapseGo : Bool → PyStr → PyStr
  | _, [] => []
  | prevWs, c :: rest =>
    if isWs c then (if prevWs then [] else [' ']) ++ collapseGo true rest
    else c :: collapseGo false rest

/-- Python `re.sub(r'\s+', ' ', s)`. -/
def collapseWs (s : PyStr) : PyStr := collapseGo false s

/-- Python `text.split('\n')`. -/
def splitNl : PyStr → List PyStr
  | [] => [[]]
  | c :: rest =>
    if c = '\n' then [] :: splitNl rest
    else
      match splitNl rest with
      | [] => [[c]]
      | p :: ps => (c :: p) :: ps

/-- Value of a digit string, as Python `int` on a `\d+` match. -/
def digitsVal (l : PyStr) : Nat :=
  l.foldl (fun acc c => acc * 10 + (c.toNat - '0'.toNat)) 0

/-- Floor of the base-2 logarithm of a positive `Nat` (fuelled so that it is
structurally recursive and kernel-computable; the value itself is the fuel,
which always suffices). -/
def log2Go : Nat → Nat → Nat
  | 0, _ => 0
  | fuel + 1, n => if 2 ≤ n then log2Go fuel (n / 2) + 1 else 0

def natLog2 (n : Nat) : Nat := log2Go n n

/-- Is `p / d ≥ 2 ^ k` (for positive `p`, `d` and a signed exponent)? -/
def gePow2 (p d : Nat) (k : Int) : Bool :=
  if 0 ≤ k then
    if d * 2 ^ k.toNat ≤ p then true else false
  else
    if d ≤ p * 2 ^ (-k).toNat then true else false

/-- Floor of the base-2 logarithm of the positive rational `p / d`.  The
crude estimate from the integer logarithms is off by at most one, fixed by a
single comparison. -/
def qlog2 (p d : Nat) : Int :=
  let k0 : Int := (natLog2 p : Int) - (natLog2 d : Int)
  if gePow2 p d k0 then k0 else k0 - 1

/-- Round `N / D` (with `D > 0`) to the nearest integer, ties to even. -/
def roundNE (N D : Nat) : Nat :=
  let m := N / D
  let r := N % D
  if 2 * r < D then m
  else if D < 2 * r then m + 1
  else if m % 2 = 0 then m else m + 1

/-- Round a rational to the nearest IEEE-754 binary64 value (round to
nearest, ties to even), represented by its exact rational value.  The unit in
the last place has exponent `max (⌊log₂ |q|⌋ - 52, -1074)`, covering normal
and subnormal numbers; the overflow-to-infinity range (`≥ 2^1024`) is not
modelled, as no finite route fare approaches it.  Implemented entirely with
integer arithmetic and `mkRat` so that it evaluates inside the kernel. -/
def roundDouble (q : ℚ) : ℚ :=
  if q = 0 then 0
  else
    let p := q.num.natAbs
    let d := q.den
    let k := qlog2 p d
    let E : Int := if k - 52 ≤ -1074 then -1074 else k - 52
    let ND : Nat × Nat :=
      if 0 ≤ E then (p, d * 2 ^ E.toNat) else (p * 2 ^ (-E).toNat, d)
    let m := roundNE ND.1 ND.2
    let mi : Int := if q.num < 0 then -(m : Int) else (m : Int)
    if 0 ≤ E then mkRat (mi * 2 ^ E.toNat) 1 else mkRat mi (2 ^ (-E).toNat)

/-- Exact rational subtraction computed on numerators and denominators (equal
to `Sub.sub` on `ℚ`, but kernel-computable). -/
def qSub (a b : ℚ) : ℚ :=
  mkRat (a.num * (b.den : Int) - b.num * (a.den : Int)) (a.den * b.den)

/-- IEEE-754 binary64 subtraction: the exact difference of the operands'
values, rounded to the nearest double. -/
def fsub (a b : ℚ) : ℚ := roundDouble (qSub a b)

/-- Python `float()` restricted to strings over `[0-9.]`, as produced by the
`[\d.]+` capture: at most one dot and at least one digit, otherwise a
`ValueError` (`none`).  The decimal value is rounded to the nearest IEEE-754
binary64 (represented by its exact rational value), as CPython's `float`
does. -/
def pyFloat (s : PyStr) : Option ℚ :=
  match s.splitOn '.' with
  | [a] =>
    if a ≠ [] ∧ a.all Char.isDigit then some (roundDouble (mkRat (digitsVal a) 1)) else none
  | [a, b] =>
    if (a ≠ [] ∨ b ≠ []) ∧ a.all Char.isDigit ∧ b.all Char.isDigit then
      some (roundDouble
        (mkRat ((digitsVal a : Int) * (10 : Int) ^ b.length + (digitsVal b : Int))
          ((10 : Nat) ^ b.length)))
    else none
  | _ => none

/-- Python `s.split(' ', 1)`: the part before the first space, and the rest
after it when a space exists. -/
def splitFirstSpace : PyStr → PyStr × Option PyStr
  | [] => ([], none)
  | c :: rest =>
    if c = ' ' then ([], some rest)
    else
      let (a, b) := splitFirstSpace rest
      (c :: a, b)

/-- Patterns of the sources' regexes.  Every repetition in those regexes is
over a one-character class, which `rep` (class, min count, optional max count,
greedy?) models with full backtracking over the repetition count. -/
inductive RE where
  | eps : RE
  | cls : (Char → Bool) → RE
  | seq : RE → RE → RE
  | alt : RE → RE → RE
  | rep : (Char → Bool) → Nat → Option Nat → Bool → RE
  | grp : Nat → RE → RE
  | look : RE → RE
  | endAnchor : RE

/-- Length of the maximal prefix run of characters in class `p`. -/
def runLen (p : Char → Bool) : PyStr → Nat
  | [] => 0
  | c :: rest => if p c then runLen p rest + 1 else 0

/-- Candidate consumption counts for a repetition, in backtracking preference
order: greedy tries the longest first, lazy the shortest first. -/
def repCounts (mn : Nat) (mx : Option Nat) (greedy : Bool) (avail : Nat) : List Nat :=
  let hi := match mx with
    | some m => min m avail
    | none => avail
  if hi < mn then []
  else
    let asc := (List.range (hi + 1 - mn)).map (· + mn)
    if greedy then asc.reverse else asc

/-- Backtracking matcher in continuation style, with Python `re` semantics:
the continuation receives the remaining suffix and the groups captured so far,
and the first success in preference order wins.  `endAnchor` is Python `$`
(end of string, or just before a final newline). -/
def mmatch : RE → PyStr → Groups → (PyStr → Groups → Option (PyStr × Groups)) →
    Option (PyStr × Groups)
  | .eps, s, g, k => k s g
  | .cls p, s, g, k =>
    match s with
    | [] => none
    | c :: rest => if p c then k rest g else none
  | .seq a b, s, g, k => mmatch a s g (fun s1 g1 => mmatch b s1 g1 k)
  | .alt a b, s, g, k =>
    match mmatch a s g k with
    | some r => some r
    | none => mmatch b s g k
  | .rep p mn mx gr, s, g, k =>
    (repCounts mn mx gr (runLen p s)).findSome? (fun n => k (s.drop n) g)
  | .grp i r, s, g, k =>
    mmatch r s g (fun s1 g1 => k s1 (g1 ++ [(i, s.take (s.length - s1.length))]))
  | .look r, s, g, k =>
    match mmatch r s g (fun s1 g1 => some (s1, g1)) with
    | some (_, g1) => k s g1
    | none => none
  | .endAnchor, s, g, k =>
    if s = [] ∨ s = ['\n'] then k s g else none

/-- Python `re.match(pattern, s)`: match anchored at the start; returns the
remaining suffix and the captured groups. -/
def reMatch (re : RE) (s : PyStr) : Option (PyStr × Groups) :=
  mmatch re s [] (fun s1 g1 => some (s1, g1))

/-- Python `match.group(i)`, with `''` for an unset group (as `re.findall`
yields). -/
def getGroup (g : Groups) (i : Nat) : PyStr :=
  match g.reverse.find? (fun p => p.1 == i) with
  | some p => p.2
  | none => []

/-- Python `re.search`: first match trying successive start positions. -/
def reSearchG (re : RE) : PyStr → Option Groups
  | [] =>
    match reMatch re [] with
    | some (_, g) => some g
    | none => none
  | c :: rest =>
    match reMatch re (c :: rest) with
    | some (_, g) => some g
    | none => reSearchG re rest

/-- Worker for Python `re.finditer`: `skip` counts the remaining characters of
the previous match still to step over, so the recursion is structural;
scanning resumes at the previous match's end. -/
def finditerGo (re : RE) : Nat → PyStr → List Groups
  | _ + 1, [] => []
  | n + 1, _ :: rest => finditerGo re n rest
  | 0, [] =>
    match reMatch re [] with
    | some (_, g) => [g]
    | none => []
  | 0, c :: rest =>
    match reMatch re (c :: rest) with
    | some (s1, g) =>
      let consumed := (c :: rest).length - s1.length
      if consumed = 0 then g :: finditerGo re 0 rest
      else g :: finditerGo re (consumed - 1) rest
    | none => finditerGo re 0 rest

/-- Python `re.finditer` / `re.findall`: non-overlapping matches scanning left
to right, each continuing after the previous match's end; the captured groups
of each match, in order. -/
def finditer (re : RE) (s : PyStr) : List Groups := finditerGo re 0 s

/-- Worker for Python `re.split`: `acc` holds the current piece reversed and
`skip` counts the remaining characters of a matched delimiter to drop. -/
def reSplitGo (re : RE) (acc : PyStr) : Nat → PyStr → List PyStr
  | _ + 1, [] => [acc.reverse]
  | n + 1, _ :: rest => reSplitGo re acc n rest
  | 0, [] => [acc.reverse]
  | 0, c :: rest =>
    match reMatch re (c :: rest) with
    | some (s1, _) =>
      let consumed := (c :: rest).length - s1.length
      if consumed = 0 then reSplitGo re (c :: acc) 0 rest
      else acc.reverse :: reSplitGo re [] (consumed - 1) rest
    | none => reSplitGo re (c :: acc) 0 rest

/-- Python `re.split(pattern, s)`. -/
def reSplit (re : RE) (s : PyStr) : List PyStr := reSplitGo re [] 0 s

/-- A literal string as a pattern. -/
def lit (s : String) : RE :=
  s.toList.foldr (fun c r => RE.seq (RE.cls (fun d => d == c)) r) RE.eps

/-- The class `[^\n]` (regex `.` without DOTALL, and the explicit class). -/
def notNl (c : Char) : Bool := c != '\n'

/-- The regex fragment `\d+\.?\d*` (a decimal number as the sources write it). -/
def decimalRE : RE :=
  .seq (.rep Char.isDigit 1 none true)
    (.seq (.rep (fun c => c == '.') 0 (some 1) true) (.rep Char.isDigit 0 none true))

/-- The class `[\d.]`. -/
def digitDot (c : Char) : Bool := c.isDigit || c == '.'

/-- The class `[|\]\}]` (OCR table-cell separators). -/
def sepChar (c : Char) : Bool := c == '|' || c == ']' || c == '}'

/-- One stop row: the dictionary appended by both
`src/into-csv/parse_bus_routes.py` and `src/process_routes.py`
(`stop_sequence`, `stop_name`, `fare_from_start`). -/
structure Stop where
  stop_sequence : Nat
  stop_name : PyStr
  fare_from_start : ℚ
deriving DecidableEq, Inhabited

namespace ParseBusRoutes

/-! Embedding of `src/into-csv/parse_bus_routes.py` (`BusRouteParser`). -/

/-- The through-marker token (Sinhala "via"). -/
def hariya : PyStr := "හරහා".toList

/-- The route-header token (Sinhala "Route No :"). -/
def headerTok : PyStr := "මාර්ග අංක :".toList

/-- The stop-row regex `^(\d+)\s+(\d+\.?\d*)\s+(.+)$` of line 92. -/
def stopRowRE : RE :=
  .seq (.grp 1 (.rep Char.isDigit 1 none true))
    (.seq (.rep isWs 1 none true)
      (.seq (.grp 2 decimalRE)
        (.seq (.rep isWs 1 none true)
          (.seq (.grp 3 (.rep notNl 1 none true)) .endAnchor))))

/-- One route record as built by `parse_route_data`. -/
structure Route where
  route_number : PyStr
  route_name : PyStr
  route_through : PyStr
  stops : List Stop
deriving DecidableEq, Inhabited

/-- The scan state of the `while` loop of `parse_route_data`:
the emitted routes, the open route, and the carried through annotation. -/
structure ParseState where
  routes : List Route
  current_route : Option Route
  current_route_through : Option PyStr
deriving DecidableEq, Inhabited

def initState : ParseState := ⟨[], none, none⟩

/-- The flush of lines 67–68 and 110–111: append the open route when its stop
list is non-empty. -/
def flushRoute (st : ParseState) : List Route :=
  match st.current_route with
  | some r => if r.stops ≠ [] then st.routes ++ [r] else st.routes
  | none => st.routes

/-- The flush of lines 56–58 (through-marker branch): additionally clears
`current_route`, but only when it was actually appended. -/
def flushThrough (st : ParseState) : List Route × Option Route :=
  match st.current_route with
  | some r => if r.stops ≠ [] then (st.routes ++ [r], (none : Option Route)) else (st.routes, some r)
  | none => (st.routes, none)

/-- One iteration of the `while i < len(lines)` loop of `parse_route_data`
(lines 45–107): strip the line, then classify it as blank / through-marker /
route-header / stop-row / other. -/
def stepLine (st : ParseState) (rawLine : PyStr) : ParseState :=
  let line := pyStrip rawLine
  if line = [] then st
  else if hariya.isSuffixOf line then
    let fl := flushThrough st
    { routes := fl.1, current_route := fl.2,
      current_route_through := some (pyStrip (pyReplace hariya [] line)) }
  else if headerTok.isPrefixOf line then
    let routes1 := flushRoute st
    let route_info := pyStrip (pyReplace headerTok [] line)
    let nn :=
      match splitFirstSpace route_info with
      | (a, some b) => (a, b)
      | (a, none) => (a, ([] : PyStr))
    { routes := routes1,
      current_route := some { route_number := nn.1, route_name := nn.2,
                              route_through := st.current_route_through.getD [],
                              stops := [] },
      current_route_through := st.current_route_through }
  else
    match st.current_route with
    | some r =>
      match reMatch stopRowRE line with
      | some (_, g) =>
        { st with current_route := some { r with stops := r.stops ++
            [{ stop_sequence := digitsVal (getGroup g 1),
               stop_name := pyStrip (getGroup g 3),
               fare_from_start := (pyFloat (getGroup g 2)).getD 0 }] } }
      | none => st
    | none => st

/-- The whole scan loop over the file's lines. -/
def parseLoop (lines : List PyStr) : ParseState := lines.foldl stepLine initState

/-- `BusRouteParser.parse_route_data` on the file's line list (lines 45–111):
run the scan, then flush the still-open route ("Don't forget the last route"). -/
def parse_route_data (lines : List PyStr) : List Route :=
  flushRoute (parseLoop lines)

/-- A stop enriched with the derived `fare_from_previous` field. -/
structure EStop where
  stop_sequence : Nat
  stop_name : PyStr
  fare_from_start : ℚ
  fare_from_previous : ℚ
deriving DecidableEq, Inhabited

/-- `BusRouteParser.calculate_fare_differences` (lines 122–146): for each
index, copy the stop and add `fare_from_previous` (the stop's own
`fare_from_start` at index 0, otherwise the IEEE-754 binary64 difference
`fsub` from the previous stop's `fare_from_start`, as the Python `-` on
floats computes). -/
def calculate_fare_differences (stops : List Stop) : List EStop :=
  (List.range stops.length).map fun i =>
    let stop := stops.getD i default
    { stop_sequence := stop.stop_sequence
      stop_name := stop.stop_name
      fare_from_start := stop.fare_from_start
      fare_from_previous :=
        if i = 0 then stop.fare_from_start
        else fsub stop.fare_from_start (stops.getD (i - 1) default).fare_from_start }

end ParseBusRoutes

namespace ProcessRoutes

/-! Embedding of `src/process_routes.py`. -/

/-- The OCR correction table of `clean_stop_name` (lines 10–26), in
declaration order. -/
def corrections : List (PyStr × PyStr) :=
  [("චිශ්ච චිදා9ාලය", "විද්‍යාලය"),
   ("චිදා9ාලය", "විද්‍යාලය"),
   ("හංදිය", "හන්දිය"),
   ("හංදියට", "හන්දියට"),
   ("Bae", "බදුල්ල"),
   ("ට්‍රැක්මෙ?", "ට්‍රැක්මෙන්"),
   ("දෝොණිය", "දෝණිය"),
   ("චරකාපොල", "දරකාපොල"),
   ("චේචැල්දෝොණිය", "දෙහිවලගොඩ"),
   ("BO", ""),
   ("Ned", ""),
   ("dz", ""),
   ("ame", ""),
   ("arg", ""),
   ("os!", "")].map fun p => (p.1.toList, p.2.toList)

/-- `clean_stop_name` (lines 6–33): apply every correction once, in table
order, then collapse whitespace runs and strip. -/
def clean_stop_name (name : PyStr) : PyStr :=
  let name := corrections.foldl (fun n p => pyReplace p.1 p.2 n) name
  pyStrip (collapseWs name)

/-- Pattern 1 of `extract_route_data` (line 60):
`(\d+)\s+([\d.]+)\s*\]\s*([^\n]+?)(?=\n\d+\s+[\d.]|$)`. -/
def stopPattern1 : RE :=
  .seq (.grp 1 (.rep Char.isDigit 1 none true))
    (.seq (.rep isWs 1 none true)
      (.seq (.grp 2 (.rep digitDot 1 none true))
        (.seq (.rep isWs 0 none true)
          (.seq (.cls (fun c => c == ']'))
            (.seq (.rep isWs 0 none true)
              (.seq (.grp 3 (.rep notNl 1 none false))
                (.look (.alt
                  (.seq (.cls (fun c => c == '\n'))
                    (.seq (.rep Char.isDigit 1 none true)
                      (.seq (.rep isWs 1 none true) (.cls digitDot))))
                  .endAnchor))))))))

/-- Pattern 2 of `extract_route_data` (line 62):
`(\d+)\s+([^\n]+?)(?=\n\d+\s+[^\n]|$)`. -/
def stopPattern2 : RE :=
  .seq (.grp 1 (.rep Char.isDigit 1 none true))
    (.seq (.rep isWs 1 none true)
      (.seq (.grp 2 (.rep notNl 1 none false))
        (.look (.alt
          (.seq (.cls (fun c => c == '\n'))
            (.seq (.rep Char.isDigit 1 none true)
              (.seq (.rep isWs 1 none true) (.cls notNl))))
          .endAnchor))))

/-- The route-number pattern of line 41: `මා(ර්ග|ථ්ග)\s*අංක\s*:\s*([^\n]+)`. -/
def routeNumRE : RE :=
  .seq (lit "මා")
    (.seq (.grp 1 (.alt (lit "ර්ග") (lit "ථ්ග")))
      (.seq (.rep isWs 0 none true)
        (.seq (lit "අංක")
          (.seq (.rep isWs 0 none true)
            (.seq (.cls (fun c => c == ':'))
              (.seq (.rep isWs 0 none true)
                (.grp 2 (.rep notNl 1 none true))))))))

/-- The fallback route-number pattern of line 46: `අංක\s*:\s*([^\n]+)`. -/
def routeNumAltRE : RE :=
  .seq (lit "අංක")
    (.seq (.rep isWs 0 none true)
      (.seq (.cls (fun c => c == ':'))
        (.seq (.rep isWs 0 none true)
          (.grp 1 (.rep notNl 1 none true)))))

/-- The route-description pattern of line 50: `අංක[^\n]+\n([^\n]+)`. -/
def routeDescRE : RE :=
  .seq (lit "අංක")
    (.seq (.rep notNl 1 none true)
      (.seq (.cls (fun c => c == '\n'))
        (.grp 1 (.rep notNl 1 none true))))

/-- Lines 41–47: route-number extraction with the alternative pattern and the
`"Unknown"` default. -/
def extractRouteNumber (page_text : PyStr) : PyStr :=
  match reSearchG routeNumRE page_text with
  | some g => pyStrip (getGroup g 2)
  | none =>
    match reSearchG routeNumAltRE page_text with
    | some g => pyStrip (getGroup g 1)
    | none => "Unknown".toList

/-- Lines 50–51: route-description extraction, `""` when absent. -/
def extractRouteDescRaw (page_text : PyStr) : PyStr :=
  match reSearchG routeDescRE page_text with
  | some g => pyStrip (getGroup g 1)
  | none => []

/-- One route record of `extract_route_data`. -/
structure RouteData where
  route_number : PyStr
  route_name : PyStr
  stops : List Stop
deriving DecidableEq, Inhabited

/-- The pattern-1 loop of lines 65–75: build a stop per match, in order;
`float()` on a `[\d.]+` capture with no or several digits around two dots
raises, which aborts the whole extraction (`none`). -/
def stopsFromMatches1 : List Groups → Option (List Stop)
  | [] => some []
  | g :: rest =>
    match pyFloat (getGroup g 2) with
    | none => none
    | some fare =>
      match stopsFromMatches1 rest with
      | none => none
      | some l =>
        some ({ stop_sequence := digitsVal (getGroup g 1),
                stop_name := clean_stop_name (pyStrip (getGroup g 3)),
                fare_from_start := fare } :: l)

/-- The pattern-2 fallback loop of lines 79–88: fares default to `0.00`. -/
def stopsFromP2 (page_text : PyStr) : List Stop :=
  (finditer stopPattern2 page_text).map fun g =>
    { stop_sequence := digitsVal (getGroup g 1),
      stop_name := clean_stop_name (pyStrip (getGroup g 2)),
      fare_from_start := 0 }

/-- `extract_route_data` (lines 35–98): pattern 1 first; pattern 2 only when
pattern 1 produced zero stops; `none` models the `except` branch (a fare the
`float()` call rejects). -/
def extract_route_data (page_text : PyStr) : Option RouteData :=
  let route_number := extractRouteNumber page_text
  let route_desc := clean_stop_name (extractRouteDescRaw page_text)
  match stopsFromMatches1 (finditer stopPattern1 page_text) with
  | none => none
  | some stops1 =>
    let stops := if stops1 = [] then stopsFromP2 page_text else stops1
    some { route_number := route_number, route_name := route_desc, stops := stops }

/-- The page-marker pattern of line 109: `=== Page \d+ ===`. -/
def pageMarkerRE : RE :=
  .seq (lit "=== Page ") (.seq (.rep Char.isDigit 1 none true) (lit " ==="))

/-- The body of the page loop of `process_text_file` (lines 113–121): skip a
page that is empty after stripping, and keep the extracted route only when it
exists and its stop list is non-empty. -/
def pageStep (acc : List RouteData) (page_text : PyStr) : List RouteData :=
  if pyStrip page_text ≠ [] then
    match extract_route_data page_text with
    | some rd => if rd.stops ≠ [] then acc ++ [rd] else acc
    | none => acc
  else acc

/-- `process_text_file` (lines 100–127) on the file's content: split on the
page marker, then run the page loop. -/
def process_text_file (content : PyStr) : List RouteData :=
  (reSplit pageMarkerRE content).foldl pageStep []

end ProcessRoutes

namespace DataCleaning

/-! Embedding of `src/data-cleaning.py`. -/

/-- The correction table of `clean_stop_name` (lines 44–52). -/
def corrections : List (PyStr × PyStr) :=
  [("චිශ්ච චිදා9ාලය", "විද්‍යාලය"),
   ("චිදා9ාලය", "විද්‍යාලය"),
   ("හංදිය", "හන්දිය"),
   ("හංදියට", "හන්දියට"),
   ("Bae", "බදුල්ල"),
   ("ට්‍රැක්මෙ?", "ට්‍රැක්මෙන්"),
   ("දෝොණිය", "දෝණිය")].map fun p => (p.1.toList, p.2.toList)

/-- `clean_stop_name` (lines 40–57): apply every correction once, in table
order (no whitespace collapsing in this variant). -/
def clean_stop_name (name : PyStr) : PyStr :=
  corrections.foldl (fun n p => pyReplace p.1 p.2 n) name

end DataCleaning

namespace StepTwo

/-! Embedding of `src/Step_2/extract_bus_routes.py` (`parse_table_data`,
lines 25–63, is shared verbatim with `src/Step_1/extract_bus_routes.py`
lines 48–87 up to its extra skip-word list and a slightly stricter
lookahead; the post-capture cleanup and row-rejection logic — the part the
claims are about — is identical in both). -/

def gaastu : PyStr := "ගාස්තු".toList

def avasthaa : PyStr := "අවස්ථා".toList

/-- The header/footer words of line 36. -/
def skipWords : List PyStr :=
  ["ජාතික ගමනාගමන", "කොමිෂන්", "සභාව", "උද්‍යාන පාර", "ක්ෂණික ඇමතුම්"].map String.toList

/-- The table-row pattern of line 41:
`(\d+)\s+(?:(\d+\.?\d*)\s*[|\]\}])?\s*(.+?)(?=\s+\d+\s+(?:\d+\.?\d*\s*[|\]\}]|$)|$)`. -/
def rowRE : RE :=
  .seq (.grp 1 (.rep Char.isDigit 1 none true))
    (.seq (.rep isWs 1 none true)
      (.seq (.alt (.seq (.grp 2 decimalRE) (.seq (.rep isWs 0 none true) (.cls sepChar))) .eps)
        (.seq (.rep isWs 0 none true)
          (.seq (.grp 3 (.rep notNl 1 none false))
            (.look (.alt
              (.seq (.rep isWs 1 none true)
                (.seq (.rep Char.isDigit 1 none true)
                  (.seq (.rep isWs 1 none true)
                    (.alt (.seq decimalRE (.seq (.rep isWs 0 none true) (.cls sepChar)))
                      .endAnchor))))
              .endAnchor))))))

/-- The cleanup pattern of line 51: `^\d+\s+`. -/
def leadDigitsRE : RE :=
  .seq (.rep Char.isDigit 1 none true) (.rep isWs 1 none true)

/-- `re.sub(r'^\d+\s+', '', s)`: the pattern is anchored, so at most the
leading match is removed. -/
def subLeadingDigitsWs (s : PyStr) : PyStr :=
  match reMatch leadDigitsRE s with
  | some (rest, _) => rest
  | none => s

/-- The class `[\d\s|\]\}]` of the rejection pattern of line 56. -/
def noiseChar (c : Char) : Bool := c.isDigit || isWs c || c == '|' || c == ']' || c == '}'

/-- The rejection pattern of line 56: `^[\d\s|\]\}]+$`. -/
def noiseRE : RE := .seq (.rep noiseChar 1 none true) .endAnchor

/-- One extracted table row (all fields are strings in this script). -/
structure TableRow where
  stop_number : PyStr
  distance_km : PyStr
  location : PyStr
deriving DecidableEq, Inhabited

/-- Lines 48–51: the cleaned location of a row candidate — strip the captured
group, remove a leading digits+whitespace run, strip again. -/
def cleanedLocation (g : Groups) : PyStr :=
  pyStrip (subLeadingDigitsWs (pyStrip (getGroup g 3)))

/-- Lines 45–61, the body of the per-match loop: keep the row only if the
cleaned location is non-empty, longer than one character, and not pure
digits/whitespace/separators. -/
def rowFilter (g : Groups) : Option TableRow :=
  let location := cleanedLocation g
  if location ≠ [] ∧ 1 < location.length then
    if (reMatch noiseRE location).isSome then none
    else some { stop_number := getGroup g 1, distance_km := getGroup g 2, location := location }
  else none

/-- The body of the line loop of `parse_table_data` (lines 30–61): skip
blank/caption/boilerplate lines, then run the row pattern over the line and
keep the accepted rows. -/
def tableStep (acc : List TableRow) (line : PyStr) : List TableRow :=
  if pyStrip line = [] ∨ containsSub gaastu line = true ∨ containsSub avasthaa line = true then
    acc
  else if skipWords.any (fun w => containsSub w line) then acc
  else acc ++ (finditer rowRE line).filterMap rowFilter

/-- `parse_table_data` (lines 25–63): split into lines, run the line loop. -/
def parse_table_data (text : PyStr) : List TableRow :=
  (splitNl text).foldl tableStep []

/-- The page-marker pattern of line 76: `===\s*Page\s+\d+\s*===`. -/
def pageMarkerRE : RE :=
  .seq (lit "===")
    (.seq (.rep isWs 0 none true)
      (.seq (lit "Page")
        (.seq (.rep isWs 1 none true)
          (.seq (.rep Char.isDigit 1 none true)
            (.seq (.rep isWs 0 none true) (lit "==="))))))

/-- Lines 76–80 of `extract_routes_from_txt`: split on the page marker; with
no marker (a single piece) the whole content is one page. -/
def pagesOf (content : PyStr) : List PyStr :=
  let pages := reSplit pageMarkerRE content
  if pages.length ≤ 1 then [content] else pages

end StepTwo

/-- Does the string start with a non-whitespace character (or is empty)?
Used to characterise the fixed points of whitespace collapsing. -/
def headNotWs : PyStr → Bool
  | [] => true
  | c :: _ => !isWs c

/-- Every whitespace character is a plain space and is followed by a
non-whitespace character (or the end): the strings `collapseWs` leaves
unchanged. -/
def wsOk : PyStr → Bool
  | [] => true
  | c :: rest => (!isWs c || (c == ' ' && headNotWs rest)) && wsOk rest

/-! ## Theorems -/

lemma getD_range_map {α : Type} [Inhabited α] (f : Nat → α) (n i : Nat) (h : i < n) :
    ((List.range n).map f).getD i default = f i := by
  rw [List.getD_eq_getElem?_getD, List.getElem?_map, List.getElem?_range h]
  rfl

lemma tele_sum (stops : List Stop) :
    ∀ n, 0 < n → n ≤ stops.length →
      ((List.range n).map (fun i =>
        if i = 0 then (stops.getD i default).fare_from_start
        else (stops.getD i default).fare_from_start
              - (stops.getD (i - 1) default).fare_from_start)).sum
      = (stops.getD (n - 1) default).fare_from_start := by
  intro n
  induction n with
  | zero => omega
  | succ m ih =>
    intro _ hle
    rcases Nat.eq_zero_or_pos m with h0 | hm
    · subst h0
      rw [show List.range 1 = [0] from rfl]
      simp
    · rw [List.range_succ, List.map_append, List.sum_append]
      rw [ih hm (Nat.le_of_succ_le hle)]
      have hmne : m ≠ 0 := Nat.pos_iff_ne_zero.mp hm
      simp only [List.map_cons, List.map_nil, List.sum_cons, List.sum_nil, if_neg hmne]
      ring_nf
      simp

/-- C10: `calculate_fare_differences` is a frame-preserving enrichment — the
output has the same length and order, and every carried field
(`stop_sequence`, `stop_name`, `fare_from_start`) is copied unchanged; only
`fare_from_previous` is added.  (Absence of mutation is inherent in the pure
embedding: the input list is untouched and each output entry is a fresh
record.) -/
theorem c10_fare_enrichment_frame (stops : List Stop) :
    (ParseBusRoutes.calculate_fare_differences stops).length = stops.length
    ∧ (∀ i, i < stops.length →
        ((ParseBusRoutes.calculate_fare_differences stops).getD i default).stop_sequence
            = (stops.getD i default).stop_sequence
        ∧ ((ParseBusRoutes.calculate_fare_differences stops).getD i default).stop_name
            = (stops.getD i default).stop_name
        ∧ ((ParseBusRoutes.calculate_fare_differences stops).getD i default).fare_from_start
            = (stops.getD i default).fare_from_start) := by
  constructor
  · simp [ParseBusRoutes.calculate_fare_differences]
  · intro i hi
    rw [ParseBusRoutes.calculate_fare_differences, getD_range_map _ _ _ hi]
    exact ⟨rfl, rfl, rfl⟩

theorem c10_witness :
    (1 < ([⟨0, "a".toList, 0⟩, ⟨1, "b".toList, 5⟩] : List Stop).length)
    ∧ ((ParseBusRoutes.calculate_fare_differences
          [⟨0, "a".toList, 0⟩, ⟨1, "b".toList, 5⟩]).getD 1 default).stop_name
        = (([⟨0, "a".toList, 0⟩, ⟨1, "b".toList, 5⟩] :
            List Stop).getD 1 default).stop_name :=
  ⟨by decide,
   ((c10_fare_enrichment_frame [⟨0, "a".toList, 0⟩, ⟨1, "b".toList, 5⟩]).2 1 (by decide)).2.1⟩

lemma qSub_eq_sub (a b : ℚ) : qSub a b = a - b := by
  have ha : ((a.den : ℚ)) ≠ 0 := Nat.cast_ne_zero.mpr a.den_nz
  have hb : ((b.den : ℚ)) ≠ 0 := Nat.cast_ne_zero.mpr b.den_nz
  rw [qSub, Rat.mkRat_eq_div]
  conv_rhs => rw [← Rat.num_div_den a, ← Rat.num_div_den b]
  rw [div_sub_div _ _ ha hb]
  push_cast
  ring_nf

/-- C2 counterexample: at the reachable fares `[1e16, 1.0]` (as parsed by
`float()` from the stop-row captures `"10000000000000000"` and `"1"`),
binary64 subtraction rounds `1.0 - 1e16` to `-1e16` (round to nearest, ties
to even), so the emitted `fare_from_previous` values are `[1e16, -1e16]` and
sum to `0`, not to `1.0`, the `fare_from_start` of the last stop: the
telescoping-sum law fails under the float arithmetic of the program. -/
theorem c2_counterexample :
    ((ParseBusRoutes.calculate_fare_differences
        [⟨1, "A".toList, (pyFloat "10000000000000000".toList).getD 0⟩,
         ⟨2, "B".toList, (pyFloat "1".toList).getD 0⟩]).map
        (fun e => e.fare_from_previous)).sum
      ≠ (([⟨1, "A".toList, (pyFloat "10000000000000000".toList).getD 0⟩,
           ⟨2, "B".toList, (pyFloat "1".toList).getD 0⟩] : List Stop).getLast
          (by decide)).fare_from_start := by
  have h1 : ((ParseBusRoutes.calculate_fare_differences
        [⟨1, "A".toList, (pyFloat "10000000000000000".toList).getD 0⟩,
         ⟨2, "B".toList, (pyFloat "1".toList).getD 0⟩]).map
        (fun e => e.fare_from_previous))
      = [mkRat (10 ^ 16) 1, mkRat (-(10 ^ 16)) 1] := by decide
  have h2 : (([⟨1, "A".toList, (pyFloat "10000000000000000".toList).getD 0⟩,
           ⟨2, "B".toList, (pyFloat "1".toList).getD 0⟩] : List Stop).getLast
          (by decide)).fare_from_start = mkRat 1 1 := by decide
  rw [h1, h2]
  simp only [List.sum_cons, List.sum_nil, Rat.mkRat_eq_div]
  norm_num

/-- C2 (amended): for every route with a non-empty stop list, the
`fare_from_previous` of the first stop equals its `fare_from_start`, and the
`fare_from_previous` of every later stop is the binary64 rounding of its
`fare_from_start` minus the `fare_from_start` of the preceding stop.  The
telescoping-sum law (`sum(fare_from_previous) = last fare_from_start`) holds
whenever each of those differences is exactly representable (its rounding is
exact) — in general it fails under float arithmetic (see the
counterexample). -/
theorem c2_fare_delta_law_amended (stops : List Stop) (h : stops ≠ []) :
    ((ParseBusRoutes.calculate_fare_differences stops).getD 0 default).fare_from_previous
        = (stops.getD 0 default).fare_from_start
    ∧ (∀ i, 0 < i → i < stops.length →
        ((ParseBusRoutes.calculate_fare_differences stops).getD i default).fare_from_previous
          = roundDouble ((stops.getD i default).fare_from_start
              - (stops.getD (i - 1) default).fare_from_start))
    ∧ ((∀ i, 0 < i → i < stops.length →
          roundDouble ((stops.getD i default).fare_from_start
              - (stops.getD (i - 1) default).fare_from_start)
            = (stops.getD i default).fare_from_start
              - (stops.getD (i - 1) default).fare_from_start) →
        ((ParseBusRoutes.calculate_fare_differences stops).map
            (fun e => e.fare_from_previous)).sum
          = (stops.getLast h).fare_from_start) := by
  have hl : 0 < stops.length := List.length_pos.mpr h
  refine ⟨?_, ?_, ?_⟩
  · rw [ParseBusRoutes.calculate_fare_differences, getD_range_map _ _ _ hl]
    simp
  · intro i hi0 hi
    rw [ParseBusRoutes.calculate_fare_differences, getD_range_map _ _ _ hi]
    simp only [Nat.pos_iff_ne_zero.mp hi0, if_false]
    rw [show fsub ((stops.getD i default).fare_from_start)
          ((stops.getD (i - 1) default).fare_from_start)
        = roundDouble (qSub ((stops.getD i default).fare_from_start)
            ((stops.getD (i - 1) default).fare_from_start)) from rfl]
    rw [qSub_eq_sub]
  · intro hexact
    have cfdmap : (ParseBusRoutes.calculate_fare_differences stops).map
          (fun e => e.fare_from_previous)
        = (List.range stops.length).map (fun i =>
            if i = 0 then (stops.getD i default).fare_from_start
            else (stops.getD i default).fare_from_start
                  - (stops.getD (i - 1) default).fare_from_start) := by
      rw [ParseBusRoutes.calculate_fare_differences, List.map_map]
      apply List.map_congr_left
      intro i hi
      rw [List.mem_range] at hi
      by_cases h0 : i = 0
      · subst h0
        simp
      · have hpos : 0 < i := Nat.pos_of_ne_zero h0
        dsimp only [Function.comp_apply]
        rw [if_neg h0, if_neg h0]
        rw [show fsub ((stops.getD i default).fare_from_start)
              ((stops.getD (i - 1) default).fare_from_start)
            = roundDouble (qSub ((stops.getD i default).fare_from_start)
                ((stops.getD (i - 1) default).fare_from_start)) from rfl]
        rw [qSub_eq_sub]
        exact hexact i hpos hi
    rw [cfdmap, tele_sum stops stops.length hl le_rfl]
    rw [List.getLast_eq_getElem]
    rw [List.getD_eq_getElem?_getD, List.getElem?_eq_getElem (by omega)]
    rfl

theorem c2_witness :
    (([⟨0, "a".toList, 2⟩, ⟨1, "b".toList, 5⟩] : List Stop) ≠ [])
    ∧ ((ParseBusRoutes.calculate_fare_differences
          [⟨0, "a".toList, 2⟩, ⟨1, "b".toList, 5⟩]).map
            (fun e => e.fare_from_previous)).sum
        = (([⟨0, "a".toList, 2⟩, ⟨1, "b".toList, 5⟩] :
            List Stop).getLast (by decide)).fare_from_start :=
  ⟨by decide,
   (c2_fare_delta_law_amended [⟨0, "a".toList, 2⟩, ⟨1, "b".toList, 5⟩] (by decide)).2.2
     (by
       intro i h1 h2
       rw [show ([⟨0, "a".toList, 2⟩, ⟨1, "b".toList, 5⟩] : List Stop).length = 2
         from rfl] at h2
       have h3 : i = 1 := by omega
       subst h3
       show roundDouble ((5 : ℚ) - (2 : ℚ)) = (5 : ℚ) - (2 : ℚ)
       rw [show (5 : ℚ) - (2 : ℚ) = 3 from by norm_num]
       decide)⟩

lemma flushRoute_mem (st : ParseBusRoutes.ParseState)
    (hinv : ∀ r ∈ st.routes, r.stops ≠ []) :
    ∀ r ∈ ParseBusRoutes.flushRoute st, r.stops ≠ [] := by
  intro r hr
  rw [ParseBusRoutes.flushRoute] at hr
  cases hcur : st.current_route with
  | none => rw [hcur] at hr; exact hinv r hr
  | some q =>
    rw [hcur] at hr
    dsimp only at hr
    by_cases hq : q.stops = []
    · rw [if_neg (not_not_intro hq)] at hr
      exact hinv r hr
    · rw [if_pos hq] at hr
      rcases List.mem_append.mp hr with h1 | h1
      · exact hinv r h1
      · rw [List.mem_singleton.mp h1]; exact hq

lemma flushThrough_mem (st : ParseBusRoutes.ParseState)
    (hinv : ∀ r ∈ st.routes, r.stops ≠ []) :
    ∀ r ∈ (ParseBusRoutes.flushThrough st).1, r.stops ≠ [] := by
  intro r hr
  rw [ParseBusRoutes.flushThrough] at hr
  cases hcur : st.current_route with
  | none => rw [hcur] at hr; exact hinv r hr
  | some q =>
    rw [hcur] at hr
    dsimp only at hr
    by_cases hq : q.stops = []
    · rw [if_neg (not_not_intro hq)] at hr
      exact hinv r hr
    · rw [if_pos hq] at hr
      rcases List.mem_append.mp hr with h1 | h1
      · exact hinv r h1
      · rw [List.mem_singleton.mp h1]; exact hq

lemma stepLine_inv (st : ParseBusRoutes.ParseState) (l : PyStr)
    (hinv : ∀ r ∈ st.routes, r.stops ≠ []) :
    ∀ r ∈ (ParseBusRoutes.stepLine st l).routes, r.stops ≠ [] := by
  intro r hr
  rw [ParseBusRoutes.stepLine] at hr
  by_cases h1 : pyStrip l = []
  · simp only [h1, if_pos] at hr
    exact hinv r (by simpa using hr)
  · simp only [if_neg h1] at hr
    by_cases h2 : ParseBusRoutes.hariya.isSuffixOf (pyStrip l) = true
    · simp only [h2, if_pos] at hr
      exact flushThrough_mem st hinv r (by simpa using hr)
    · simp only [Bool.not_eq_true] at h2
      simp only [h2, Bool.false_eq_true, if_false] at hr
      by_cases h3 : ParseBusRoutes.headerTok.isPrefixOf (pyStrip l) = true
      · simp only [h3, if_pos] at hr
        exact flushRoute_mem st hinv r (by simpa using hr)
      · simp only [Bool.not_eq_true] at h3
        simp only [h3, Bool.false_eq_true, if_false] at hr
        cases hcur : st.current_route with
        | none => rw [hcur] at hr; exact hinv r hr
        | some q =>
          rw [hcur] at hr
          cases hm : reMatch ParseBusRoutes.stopRowRE (pyStrip l) with
          | none => rw [hm] at hr; exact hinv r hr
          | some pr => rw [hm] at hr; exact hinv r (by simpa using hr)

lemma foldl_stepLine_inv (lines : List PyStr) :
    ∀ st : ParseBusRoutes.ParseState, (∀ r ∈ st.routes, r.stops ≠ []) →
      ∀ r ∈ (lines.foldl ParseBusRoutes.stepLine st).routes, r.stops ≠ [] := by
  induction lines with
  | nil => intro st h; exact h
  | cons l rest ih => intro st h; exact ih _ (stepLine_inv st l h)

lemma pageStep_inv (acc : List ProcessRoutes.RouteData) (p : PyStr)
    (h : ∀ rd ∈ acc, rd.stops ≠ []) :
    ∀ rd ∈ ProcessRoutes.pageStep acc p, rd.stops ≠ [] := by
  intro rd hrd
  rw [ProcessRoutes.pageStep] at hrd
  by_cases h1 : pyStrip p ≠ []
  · rw [if_pos h1] at hrd
    cases he : ProcessRoutes.extract_route_data p with
    | none => rw [he] at hrd; exact h rd hrd
    | some rd2 =>
      rw [he] at hrd
      dsimp only at hrd
      by_cases h2 : rd2.stops ≠ []
      · rw [if_pos h2] at hrd
        rcases List.mem_append.mp hrd with h3 | h3
        · exact h rd h3
        · rw [List.mem_singleton.mp h3]; exact h2
      · rw [if_neg h2] at hrd; exact h rd hrd
  · rw [if_neg h1] at hrd; exact h rd hrd

lemma foldl_pageStep_inv (pages : List PyStr) :
    ∀ acc, (∀ rd ∈ acc, rd.stops ≠ []) →
      ∀ rd ∈ pages.foldl ProcessRoutes.pageStep acc, rd.stops ≠ [] := by
  induction pages with
  | nil => intro acc h; exact h
  | cons p rest ih => intro acc h; exact ih _ (pageStep_inv acc p h)

/-- C1: a route reaches the output only with a non-empty stop list — in
`parse_route_data` every append (through-marker flush, header flush, final
flush) is guarded by `current_route['stops']`, and in `process_text_file`
the append is guarded by `route_data['stops']`. -/
theorem c1_nonempty_route_invariant :
    (∀ (lines : List PyStr) (r : ParseBusRoutes.Route),
        r ∈ ParseBusRoutes.parse_route_data lines → r.stops ≠ [])
    ∧ (∀ (content : PyStr) (rd : ProcessRoutes.RouteData),
        rd ∈ ProcessRoutes.process_text_file content → rd.stops ≠ []) := by
  constructor
  · intro lines r hr
    exact flushRoute_mem _
      (foldl_stepLine_inv lines ParseBusRoutes.initState (by intro r h; cases h)) r hr
  · intro content rd hrd
    exact foldl_pageStep_inv _ _ (by intro rd h; cases h) rd hrd

theorem c1_witness :
    ({ route_number := "001".toList, route_name := "A".toList, route_through := [],
       stops := [⟨1, "B".toList, mkRat 5 1⟩] } : ParseBusRoutes.Route).stops ≠ [] :=
  c1_nonempty_route_invariant.1 (["මාර්ග අංක : 001 A", "1 5.00 B"].map String.toList)
    { route_number := "001".toList, route_name := "A".toList, route_through := [],
      stops := [⟨1, "B".toList, mkRat 5 1⟩] } (by decide)

/-- C3: at end of input, a still-open `current_route` with non-empty stops is
appended to the result exactly once: the output is the scanned route list
extended by exactly that one route, so its multiplicity grows by one. -/
theorem c3_flush_on_end (lines : List PyStr) (r : ParseBusRoutes.Route)
    (h1 : (ParseBusRoutes.parseLoop lines).current_route = some r)
    (h2 : r.stops ≠ []) :
    ParseBusRoutes.parse_route_data lines = (ParseBusRoutes.parseLoop lines).routes ++ [r]
    ∧ (ParseBusRoutes.parse_route_data lines).count r
        = ((ParseBusRoutes.parseLoop lines).routes).count r + 1 := by
  have he : ParseBusRoutes.parse_route_data lines
      = (ParseBusRoutes.parseLoop lines).routes ++ [r] := by
    rw [ParseBusRoutes.parse_route_data, ParseBusRoutes.flushRoute, h1]
    dsimp only
    rw [if_pos h2]
  refine ⟨he, ?_⟩
  rw [he, List.count_append]
  simp

theorem c3_witness :
    ParseBusRoutes.parse_route_data (["මාර්ග අංක : 007 X", "1 3.50 Y"].map String.toList)
      = (ParseBusRoutes.parseLoop (["මාර්ග අංක : 007 X", "1 3.50 Y"].map String.toList)).routes
        ++ [{ route_number := "007".toList, route_name := "X".toList, route_through := [],
              stops := [⟨1, "Y".toList, mkRat 7 2⟩] }] :=
  (c3_flush_on_end (["මාර්ග අංක : 007 X", "1 3.50 Y"].map String.toList)
    { route_number := "007".toList, route_name := "X".toList, route_through := [],
      stops := [⟨1, "Y".toList, mkRat 7 2⟩] } (by decide) (by decide)).1

lemma stepLine_skip (st : ParseBusRoutes.ParseState) (l : PyStr)
    (hcur : st.current_route = none)
    (hm : ParseBusRoutes.hariya.isSuffixOf (pyStrip l) = false)
    (hh : ParseBusRoutes.headerTok.isPrefixOf (pyStrip l) = false) :
    ParseBusRoutes.stepLine st l = st := by
  rw [ParseBusRoutes.stepLine]
  simp only [hm, hh, Bool.false_eq_true, if_false, hcur]
  split
  · rfl
  · rfl

lemma stepLine_noheader (st : ParseBusRoutes.ParseState) (l : PyStr)
    (hcur : st.current_route = none) (hroutes : st.routes = [])
    (hh : ParseBusRoutes.headerTok.isPrefixOf (pyStrip l) = false) :
    (ParseBusRoutes.stepLine st l).routes = []
    ∧ (ParseBusRoutes.stepLine st l).current_route = none := by
  rw [ParseBusRoutes.stepLine]
  simp only [hh, Bool.false_eq_true, if_false]
  by_cases h1 : pyStrip l = []
  · simp [h1, hroutes, hcur]
  · simp only [h1, if_false]
    by_cases h2 : ParseBusRoutes.hariya.isSuffixOf (pyStrip l) = true
    · simp [h2, ParseBusRoutes.flushThrough, hcur, hroutes]
    · simp only [Bool.not_eq_true] at h2
      simp [h2, hcur, hroutes]

lemma foldl_stepLine_skip (pre : List PyStr) :
    ∀ st : ParseBusRoutes.ParseState, st.current_route = none →
      (∀ l ∈ pre, ParseBusRoutes.hariya.isSuffixOf (pyStrip l) = false
        ∧ ParseBusRoutes.headerTok.isPrefixOf (pyStrip l) = false) →
      pre.foldl ParseBusRoutes.stepLine st = st := by
  induction pre with
  | nil => intro st _ _; rfl
  | cons l rest ih =>
    intro st hcur hall
    have h := hall l (by simp)
    rw [List.foldl_cons, stepLine_skip st l hcur h.1 h.2]
    exact ih st hcur (fun x hx => hall x (by simp [hx]))

lemma foldl_stepLine_noheader (lines : List PyStr) :
    ∀ st : ParseBusRoutes.ParseState, st.current_route = none → st.routes = [] →
      (∀ l ∈ lines, ParseBusRoutes.headerTok.isPrefixOf (pyStrip l) = false) →
      (lines.foldl ParseBusRoutes.stepLine st).routes = []
      ∧ (lines.foldl ParseBusRoutes.stepLine st).current_route = none := by
  induction lines with
  | nil => intro st hcur hroutes _; exact ⟨hroutes, hcur⟩
  | cons l rest ih =>
    intro st hcur hroutes hall
    have h := stepLine_noheader st l hcur hroutes (hall l (by simp))
    rw [List.foldl_cons]
    exact ih _ h.2 h.1 (fun x hx => hall x (by simp [hx]))

/-- C9: the per-line classification loop is total (it is a Lean function, so
no exception is modelled as escaping it), and stop rows are only matched while
a route is open: lines that are neither headers nor through-markers — in
particular well-formed stop rows before any header — leave the scan state
unchanged, and an input with no header line at all yields no route. -/
theorem c9_stop_rows_before_header_skipped :
    (∀ pre post : List PyStr,
      (∀ l ∈ pre, ParseBusRoutes.hariya.isSuffixOf (pyStrip l) = false
        ∧ ParseBusRoutes.headerTok.isPrefixOf (pyStrip l) = false) →
      ParseBusRoutes.parse_route_data (pre ++ post) = ParseBusRoutes.parse_route_data post)
    ∧ (∀ lines : List PyStr,
      (∀ l ∈ lines, ParseBusRoutes.headerTok.isPrefixOf (pyStrip l) = false) →
      ParseBusRoutes.parse_route_data lines = []) := by
  constructor
  · intro pre post hall
    rw [ParseBusRoutes.parse_route_data, ParseBusRoutes.parseLoop, List.foldl_append,
      foldl_stepLine_skip pre ParseBusRoutes.initState rfl hall]
    rfl
  · intro lines hall
    have h := foldl_stepLine_noheader lines ParseBusRoutes.initState rfl rfl hall
    have h2 : (ParseBusRoutes.parseLoop lines).current_route = none := h.2
    have h1 : (ParseBusRoutes.parseLoop lines).routes = [] := h.1
    rw [ParseBusRoutes.parse_route_data, ParseBusRoutes.flushRoute, h2]
    exact h1

theorem c9_witness :
    ParseBusRoutes.parse_route_data
        (["1 2.50 කොළඹ"].map String.toList
          ++ ["මාර්ග අංක : 5 x", "1 2.00 y"].map String.toList)
      = ParseBusRoutes.parse_route_data (["මාර්ග අංක : 5 x", "1 2.00 y"].map String.toList) :=
  c9_stop_rows_before_header_skipped.1 (["1 2.50 කොළඹ"].map String.toList)
    (["මාර්ග අංක : 5 x", "1 2.00 y"].map String.toList) (by decide)

/-- C4: a through-marker line records the line's text with the marker removed
(stripped) as the pending annotation; a header line leaves the pending
annotation unchanged and stamps it onto the new route (sticky-banner
semantics).  Concretely, one banner followed by two headers with stops yields
two routes both carrying the banner text, until a later banner replaces it. -/
theorem c4_through_marker_sticky :
    (∀ (st : ParseBusRoutes.ParseState) (raw : PyStr),
      ParseBusRoutes.hariya.isSuffixOf (pyStrip raw) = true →
      (ParseBusRoutes.stepLine st raw).current_route_through
        = some (pyStrip (pyReplace ParseBusRoutes.hariya [] (pyStrip raw))))
    ∧ (∀ (st : ParseBusRoutes.ParseState) (raw : PyStr),
      ParseBusRoutes.hariya.isSuffixOf (pyStrip raw) = false →
      ParseBusRoutes.headerTok.isPrefixOf (pyStrip raw) = true →
      (ParseBusRoutes.stepLine st raw).current_route_through = st.current_route_through
      ∧ ((ParseBusRoutes.stepLine st raw).current_route).map (fun r => r.route_through)
          = some (st.current_route_through.getD []))
    ∧ (ParseBusRoutes.parse_route_data
        (["නුවර හරහා", "මාර්ග අංක : 001 කොළඹ - මහනුවර", "1 0.00 කොළඹ",
          "මාර්ග අංක : 002 A B", "1 10.50 ගාල්ල", "ගම්පහ හරහා",
          "මාර්ග අංක : 003 X", "2 5.00 Y"].map String.toList)).map
            (fun r => r.route_through)
        = ["නුවර".toList, "නුවර".toList, "ගම්පහ".toList] := by
  refine ⟨?_, ?_, by decide⟩
  · intro st raw hm
    have hne : pyStrip raw ≠ [] := by
      intro h
      rw [h] at hm
      exact absurd hm (by decide)
    rw [ParseBusRoutes.stepLine]
    simp only [hne, if_false, hm, if_true]
  · intro st raw hm hh
    have hne : pyStrip raw ≠ [] := by
      intro h
      rw [h] at hh
      exact absurd hh (by decide)
    rw [ParseBusRoutes.stepLine]
    simp [hne, hm, hh]

theorem c4_witness :
    ParseBusRoutes.hariya.isSuffixOf (pyStrip "නුවර හරහා".toList) = true
    ∧ (ParseBusRoutes.stepLine ParseBusRoutes.initState "නුවර හරහා".toList).current_route_through
        = some (pyStrip (pyReplace ParseBusRoutes.hariya [] (pyStrip "නුවර හරහා".toList))) :=
  ⟨by decide, c4_through_marker_sticky.1 ParseBusRoutes.initState "නුවර හරහා".toList (by decide)⟩

lemma stopsFromMatches1_length :
    ∀ (ms : List Groups) (l : List Stop),
      ProcessRoutes.stopsFromMatches1 ms = some l → l.length = ms.length := by
  intro ms
  induction ms with
  | nil =>
    intro l h
    rw [ProcessRoutes.stopsFromMatches1] at h
    cases h
    rfl
  | cons g rest ih =>
    intro l h
    rw [ProcessRoutes.stopsFromMatches1] at h
    cases hf : pyFloat (getGroup g 2) with
    | none => rw [hf] at h; cases h
    | some fare =>
      rw [hf] at h
      cases hr : ProcessRoutes.stopsFromMatches1 rest with
      | none => rw [hr] at h; cases h
      | some l2 =>
        rw [hr] at h
        cases h
        simp [ih l2 hr]

/-- C5: `extract_route_data` uses the fare-omitted fallback grammar only when
the primary bracketed-fare grammar produced zero matches on the page; when the
primary grammar matched at least once, the emitted stops are exactly the
primary-grammar stops (the fallback is never consulted), and when the fallback
is used every stop's `fare_from_start` is `0.00`. -/
theorem c5_fallback_only_on_zero_matches (page : PyStr) :
    (finditer ProcessRoutes.stopPattern1 page = [] →
      ProcessRoutes.extract_route_data page
        = some { route_number := ProcessRoutes.extractRouteNumber page,
                 route_name := ProcessRoutes.clean_stop_name
                   (ProcessRoutes.extractRouteDescRaw page),
                 stops := ProcessRoutes.stopsFromP2 page }
      ∧ ∀ s ∈ ProcessRoutes.stopsFromP2 page, s.fare_from_start = 0)
    ∧ (finditer ProcessRoutes.stopPattern1 page ≠ [] →
      ∀ rd, ProcessRoutes.extract_route_data page = some rd →
        ProcessRoutes.stopsFromMatches1 (finditer ProcessRoutes.stopPattern1 page)
          = some rd.stops ∧ rd.stops ≠ []) := by
  constructor
  · intro hnone
    constructor
    · rw [ProcessRoutes.extract_route_data, hnone]
      rw [show ProcessRoutes.stopsFromMatches1 [] = some [] from rfl]
      rfl
    · intro s hs
      rw [ProcessRoutes.stopsFromP2] at hs
      rcases List.mem_map.mp hs with ⟨g, _, rfl⟩
      rfl
  · intro hne rd hrd
    rw [ProcessRoutes.extract_route_data] at hrd
    cases hm : ProcessRoutes.stopsFromMatches1 (finditer ProcessRoutes.stopPattern1 page) with
    | none => rw [hm] at hrd; cases hrd
    | some l =>
      rw [hm] at hrd
      have hlne : l ≠ [] := by
        intro h0
        have := stopsFromMatches1_length _ _ hm
        rw [h0] at this
        exact hne (List.length_eq_zero.mp this.symm)
      dsimp only at hrd
      rw [if_neg hlne] at hrd
      cases hrd
      dsimp only
      exact ⟨rfl, hlne⟩

theorem c5_witness :
    (finditer ProcessRoutes.stopPattern1 "1 2.50] කොළඹ".toList ≠ []
      ∧ ∀ rd, ProcessRoutes.extract_route_data "1 2.50] කොළඹ".toList = some rd →
          ProcessRoutes.stopsFromMatches1
              (finditer ProcessRoutes.stopPattern1 "1 2.50] කොළඹ".toList)
            = some rd.stops ∧ rd.stops ≠ [])
    ∧ (finditer ProcessRoutes.stopPattern1 "1 කොළඹ\n2 ගාල්ල".toList = []
      ∧ ∀ s ∈ ProcessRoutes.stopsFromP2 "1 කොළඹ\n2 ගාල්ල".toList, s.fare_from_start = 0) :=
  ⟨⟨by decide, (c5_fallback_only_on_zero_matches "1 2.50] කොළඹ".toList).2 (by decide)⟩,
   ⟨by decide, ((c5_fallback_only_on_zero_matches "1 කොළඹ\n2 ගාල්ල".toList).1 (by decide)).2⟩⟩

lemma reSplitGo_of_no_match (re : RE) :
    ∀ (s : PyStr) (acc : PyStr), finditerGo re 0 s = [] →
      reSplitGo re acc 0 s = [acc.reverse ++ s] := by
  intro s
  induction s with
  | nil =>
    intro acc _
    simp [reSplitGo]
  | cons c rest ih =>
    intro acc h
    rw [finditerGo] at h
    rw [reSplitGo]
    cases hm : reMatch re (c :: rest) with
    | some pr =>
      exfalso
      rcases pr with ⟨s1, g⟩
      rw [hm] at h
      dsimp only at h
      split at h <;> simp at h
    | none =>
      rw [hm] at h
      dsimp only at h ⊢
      rw [ih (c :: acc) h]
      simp

lemma foldl_pageStep_eq (pages : List PyStr) :
    ∀ acc, pages.foldl ProcessRoutes.pageStep acc
      = acc ++ (pages.filter (fun p => pyStrip p ≠ [])).filterMap
          (fun p => match ProcessRoutes.extract_route_data p with
            | some rd => if rd.stops ≠ [] then some rd else none
            | none => none) := by
  induction pages with
  | nil => intro acc; simp
  | cons p rest ih =>
    intro acc
    rw [List.foldl_cons]
    by_cases h1 : pyStrip p ≠ []
    · cases he : ProcessRoutes.extract_route_data p with
      | none =>
        rw [ih]
        simp [ProcessRoutes.pageStep, h1, he]
      | some rd =>
        by_cases h2 : rd.stops ≠ []
        · rw [ih]
          simp [ProcessRoutes.pageStep, h1, he, h2]
        · rw [ih]
          simp [ProcessRoutes.pageStep, h1, he, h2]
    · rw [ih]
      simp [ProcessRoutes.pageStep, h1]

/-- C7: splitting on the page-marker pattern yields the whole document as the
single segment when the pattern matches zero times (in both
`process_text_file` and `extract_routes_from_txt`), and segments that are
empty after stripping contribute nothing — `process_text_file` equals the
keep-loop over only the non-empty-after-strip segments, with no error
possible (the embedding is a total function). -/
theorem c7_segmentation :
    (∀ content : PyStr, finditer ProcessRoutes.pageMarkerRE content = [] →
      reSplit ProcessRoutes.pageMarkerRE content = [content])
    ∧ (∀ content : PyStr, ProcessRoutes.process_text_file content
        = ((reSplit ProcessRoutes.pageMarkerRE content).filter
            (fun p => pyStrip p ≠ [])).filterMap
            (fun p => match ProcessRoutes.extract_route_data p with
              | some rd => if rd.stops ≠ [] then some rd else none
              | none => none))
    ∧ (∀ content : PyStr, finditer StepTwo.pageMarkerRE content = [] →
      StepTwo.pagesOf content = [content]) := by
  refine ⟨?_, ?_, ?_⟩
  · intro content h
    rw [reSplit, reSplitGo_of_no_match ProcessRoutes.pageMarkerRE content [] h]
    simp
  · intro content
    rw [ProcessRoutes.process_text_file, foldl_pageStep_eq]
    simp
  · intro content h
    rw [StepTwo.pagesOf, reSplit, reSplitGo_of_no_match StepTwo.pageMarkerRE content [] h]
    simp

theorem c7_witness :
    reSplit ProcessRoutes.pageMarkerRE "hello".toList = ["hello".toList]
    ∧ StepTwo.pagesOf "hello".toList = ["hello".toList] :=
  ⟨c7_segmentation.1 "hello".toList (by decide),
   c7_segmentation.2.2 "hello".toList (by decide)⟩

lemma runLen_le_length (p : Char → Bool) : ∀ l : PyStr, runLen p l ≤ l.length := by
  intro l
  induction l with
  | nil => simp [runLen]
  | cons c rest ih =>
    rw [runLen]
    split
    · simpa using ih
    · simp

lemma all_of_runLen_eq_length (p : Char → Bool) :
    ∀ l : PyStr, runLen p l = l.length → l.all p = true := by
  intro l
  induction l with
  | nil => intro _; rfl
  | cons c rest ih =>
    intro h
    rw [runLen] at h
    by_cases hp : p c = true
    · rw [if_pos hp] at h
      simp only [List.length_cons, Nat.add_right_cancel_iff] at h
      rw [List.all_cons, hp, ih h]
      rfl
    · rw [if_neg hp] at h
      exact absurd h.symm (by simp)

lemma runLen_eq_length_of_all (p : Char → Bool) :
    ∀ l : PyStr, l.all p = true → runLen p l = l.length := by
  intro l
  induction l with
  | nil => intro _; rfl
  | cons c rest ih =>
    intro h
    rw [List.all_cons, Bool.and_eq_true] at h
    rw [runLen, if_pos h.1, ih h.2]
    rfl

lemma take_all_of_le_runLen (p : Char → Bool) :
    ∀ (l : PyStr) (n : Nat), n ≤ runLen p l → (l.take n).all p = true := by
  intro l
  induction l with
  | nil => intro n _; simp
  | cons c rest ih =>
    intro n hn
    cases n with
    | zero => simp
    | succ m =>
      rw [runLen] at hn
      by_cases hp : p c = true
      · rw [if_pos hp] at hn
        rw [List.take_succ_cons, List.all_cons, Bool.and_eq_true]
        exact ⟨hp, ih m (by omega)⟩
      · rw [if_neg hp] at hn
        omega

lemma findSome?_isSome_iff {α β : Type} (f : α → Option β) :
    ∀ l : List α, (l.findSome? f).isSome = true ↔ ∃ a ∈ l, (f a).isSome = true := by
  intro l
  induction l with
  | nil => simp [List.findSome?]
  | cons a rest ih =>
    rw [List.findSome?_cons]
    cases hf : f a with
    | some b => simp [hf]
    | none => simp [hf, ih]

lemma mem_repCounts_one (R n : Nat) :
    n ∈ repCounts 1 none true R ↔ 1 ≤ n ∧ n ≤ R := by
  rw [repCounts]
  by_cases h : R < 1
  · simp only [h, if_true, if_pos]
    simp
    omega
  · simp only [h, if_false, if_neg, not_false_iff, List.mem_reverse, List.mem_map,
      List.mem_range, if_true]
    constructor
    · rintro ⟨m, hm, rfl⟩
      omega
    · rintro ⟨h1, h2⟩
      exact ⟨n - 1, by omega, by omega⟩

lemma reMatch_noiseRE_isSome (l : PyStr) :
    (reMatch StepTwo.noiseRE l).isSome = true
      ↔ l ≠ [] ∧ l.all StepTwo.noiseChar = true := by
  rw [show reMatch StepTwo.noiseRE l
      = (repCounts 1 none true (runLen StepTwo.noiseChar l)).findSome?
          (fun n => if l.drop n = [] ∨ l.drop n = ['\n']
            then some (l.drop n, ([] : Groups)) else none) from rfl]
  rw [findSome?_isSome_iff]
  constructor
  · rintro ⟨n, hn, hsome⟩
    rw [mem_repCounts_one] at hn
    have hne : l ≠ [] := by
      intro h0
      subst h0
      rw [show runLen StepTwo.noiseChar [] = 0 from rfl] at hn
      omega
    by_cases hc : l.drop n = [] ∨ l.drop n = ['\n']
    · refine ⟨hne, ?_⟩
      rcases hc with hc | hc
      · have hlen : l.length ≤ n := List.drop_eq_nil_iff.mp hc
        have hR := runLen_le_length StepTwo.noiseChar l
        exact all_of_runLen_eq_length _ _ (by omega)
      · have hsplit := (List.take_append_drop n l).symm
        rw [hsplit, List.all_append, Bool.and_eq_true]
        refine ⟨take_all_of_le_runLen _ _ _ hn.2, ?_⟩
        rw [hc]
        decide
    · rw [if_neg hc] at hsome
      simp at hsome
  · rintro ⟨hne, hall⟩
    refine ⟨l.length, ?_, ?_⟩
    · rw [mem_repCounts_one, runLen_eq_length_of_all _ _ hall]
      exact ⟨List.length_pos.mpr hne, le_rfl⟩
    · rw [if_pos (Or.inl (List.drop_length l))]
      rfl

lemma rowFilter_isSome_iff (g : Groups) :
    (StepTwo.rowFilter g).isSome = true
      ↔ 1 < (StepTwo.cleanedLocation g).length
        ∧ ¬((StepTwo.cleanedLocation g).all StepTwo.noiseChar = true) := by
  rw [StepTwo.rowFilter]
  by_cases h1 : StepTwo.cleanedLocation g ≠ [] ∧ 1 < (StepTwo.cleanedLocation g).length
  · rw [if_pos h1]
    by_cases h2 : (reMatch StepTwo.noiseRE (StepTwo.cleanedLocation g)).isSome = true
    · rw [if_pos h2]
      have h3 := (reMatch_noiseRE_isSome _).mp h2
      constructor
      · intro hfalse
        simp at hfalse
      · rintro ⟨_, hna⟩
        exact absurd h3.2 hna
    · rw [if_neg h2]
      constructor
      · intro _
        refine ⟨h1.2, ?_⟩
        intro hall
        exact h2 ((reMatch_noiseRE_isSome _).mpr ⟨h1.1, hall⟩)
      · intro _
        rfl
  · rw [if_neg h1]
    constructor
    · intro h
      simp at h
    · rintro ⟨hlen, _⟩
      refine absurd ⟨?_, hlen⟩ h1
      intro h0
      rw [h0] at hlen
      simp at hlen

lemma tableStep_mem :
    ∀ (lines : List PyStr) (acc : List StepTwo.TableRow) (row : StepTwo.TableRow),
      row ∈ lines.foldl StepTwo.tableStep acc →
      row ∈ acc ∨ ∃ g, StepTwo.rowFilter g = some row := by
  intro lines
  induction lines with
  | nil => intro acc row h; exact Or.inl h
  | cons l rest ih =>
    intro acc row h
    rw [List.foldl_cons] at h
    rcases ih _ row h with h2 | h2
    · rw [StepTwo.tableStep] at h2
      split at h2
      · exact Or.inl h2
      · split at h2
        · exact Or.inl h2
        · rcases List.mem_append.mp h2 with h3 | h3
          · exact Or.inl h3
          · rcases List.mem_filterMap.mp h3 with ⟨g, _, hg⟩
            exact Or.inr ⟨g, hg⟩
    · exact Or.inr h2

lemma rowFilter_some_location (g : Groups) (row : StepTwo.TableRow)
    (h : StepTwo.rowFilter g = some row) : row.location = StepTwo.cleanedLocation g := by
  rw [StepTwo.rowFilter] at h
  split at h
  · split at h
    · cases h
    · cases h
      rfl
  · cases h

/-- C6 counterexample: on the line `"1 2.5] ක"` the row pattern matches with
cleaned name `"ක"`, which is neither empty nor composed of
digits/whitespace/separators, yet `parse_table_data` emits no row (the code
additionally requires `len(location) > 1`), refuting the claimed
"rejected iff empty or noise-only". -/
theorem c6_counterexample :
    StepTwo.parse_table_data "1 2.5] ක".toList = []
    ∧ (finditer StepTwo.rowRE "1 2.5] ක".toList).map StepTwo.cleanedLocation = ["ක".toList]
    ∧ "ක".toList ≠ ([] : PyStr)
    ∧ ¬("ක".toList.all StepTwo.noiseChar = true) :=
  ⟨by decide, by decide, by decide, by decide⟩

/-- C6 (amended): after cleanup, a candidate stop row is kept iff its cleaned
name is longer than one character and not composed solely of digits,
whitespace, and the separator characters `'|'`, `']'`, `'}'`; equivalently, a
row is rejected iff its cleaned name has length at most 1 or is noise-only —
and every emitted row's name satisfies the keep condition. -/
theorem c6_row_rejection_amended :
    (∀ g : Groups, (StepTwo.rowFilter g).isSome = true
      ↔ 1 < (StepTwo.cleanedLocation g).length
        ∧ ¬((StepTwo.cleanedLocation g).all StepTwo.noiseChar = true))
    ∧ (∀ (text : PyStr) (row : StepTwo.TableRow), row ∈ StepTwo.parse_table_data text →
        1 < row.location.length ∧ ¬(row.location.all StepTwo.noiseChar = true)) := by
  constructor
  · exact rowFilter_isSome_iff
  · intro text row h
    rw [StepTwo.parse_table_data] at h
    rcases tableStep_mem _ _ _ h with h2 | h2
    · cases h2
    · rcases h2 with ⟨g, hg⟩
      have hl := rowFilter_some_location g row hg
      have h3 := (rowFilter_isSome_iff g).mp (by rw [hg]; rfl)
      rw [hl]
      exact h3

theorem c6_witness :
    1 < ("කොළඹ කොටුව".toList : PyStr).length
    ∧ ¬(("කොළඹ කොටුව".toList : PyStr).all StepTwo.noiseChar = true) :=
  c6_row_rejection_amended.2 "0 0.00] කොළඹ කොටුව".toList
    ⟨"0".toList, "0.00".toList, "කොළඹ කොටුව".toList⟩ (by decide)

lemma pyReplaceGo_of_not_contains (pat rep : PyStr) :
    ∀ s : PyStr, containsSub pat s = false → pyReplaceGo pat rep 0 s = s := by
  intro s
  induction s with
  | nil => intro _; rfl
  | cons c rest ih =>
    intro h
    rw [containsSub, Bool.or_eq_false_iff] at h
    have hcond : ¬(pat.isPrefixOf (c :: rest) = true ∧ pat ≠ []) := by
      rintro ⟨hp, _⟩
      rw [h.1] at hp
      cases hp
    rw [pyReplaceGo, if_neg hcond, ih h.2]

lemma foldl_replace_of_not_contains :
    ∀ (cs : List (PyStr × PyStr)) (n : PyStr),
      (∀ p ∈ cs, containsSub p.1 n = false) →
      cs.foldl (fun m p => pyReplace p.1 p.2 m) n = n := by
  intro cs
  induction cs with
  | nil => intro n _; rfl
  | cons c rest ih =>
    intro n h
    rw [List.foldl_cons]
    rw [show pyReplace c.1 c.2 n = n from pyReplaceGo_of_not_contains _ _ n (h c (by simp))]
    exact ih n (fun p hp => h p (by simp [hp]))

lemma collapseGo_true_eq_false (y : PyStr) (h : headNotWs y = true) :
    collapseGo true y = collapseGo false y := by
  cases y with
  | nil => rfl
  | cons c rest =>
    rw [headNotWs] at h
    have h2 : isWs c = false := by simpa using h
    rw [collapseGo, collapseGo, h2]
    simp

lemma wsOk_tail (c : Char) (rest : PyStr) (h : wsOk (c :: rest) = true) :
    wsOk rest = true := by
  rw [wsOk, Bool.and_eq_true] at h
  exact h.2

lemma collapseGo_false_eq_self :
    ∀ y : PyStr, wsOk y = true → collapseGo false y = y := by
  intro y
  induction y with
  | nil => intro _; rfl
  | cons c rest ih =>
    intro h
    have hr := wsOk_tail c rest h
    rw [wsOk, Bool.and_eq_true] at h
    by_cases hw : isWs c = true
    · have h3 : (c == ' ' && headNotWs rest) = true := by
        simpa [hw] using h.1
      rw [Bool.and_eq_true] at h3
      have hc : c = ' ' := by simpa using h3.1
      have e2 : collapseGo false (c :: rest) = ' ' :: collapseGo true rest := by
        rw [collapseGo, if_pos hw]
        rfl
      rw [e2, collapseGo_true_eq_false rest h3.2, ih hr, hc]
    · rw [collapseGo, if_neg hw, ih hr]

lemma collapseGo_wsOk :
    ∀ y : PyStr, wsOk (collapseGo false y) = true ∧ wsOk (collapseGo true y) = true
      ∧ headNotWs (collapseGo true y) = true := by
  intro y
  induction y with
  | nil => exact ⟨rfl, rfl, rfl⟩
  | cons c rest ih =>
    by_cases hw : isWs c = true
    · have e1 : collapseGo true (c :: rest) = collapseGo true rest := by
        rw [collapseGo, if_pos hw]
        rfl
      have e2 : collapseGo false (c :: rest) = ' ' :: collapseGo true rest := by
        rw [collapseGo, if_pos hw]
        rfl
      refine ⟨?_, by rw [e1]; exact ih.2.1, by rw [e1]; exact ih.2.2⟩
      rw [e2, wsOk, Bool.and_eq_true]
      refine ⟨?_, ih.2.1⟩
      rw [ih.2.2]
      decide
    · have hwf : isWs c = false := by
        simpa using hw
      have e1 : collapseGo true (c :: rest) = c :: collapseGo false rest := by
        rw [collapseGo, if_neg hw]
      have e2 : collapseGo false (c :: rest) = c :: collapseGo false rest := by
        rw [collapseGo, if_neg hw]
      refine ⟨?_, ?_, ?_⟩
      · rw [e2, wsOk, Bool.and_eq_true]
        exact ⟨by simp [hwf], ih.1⟩
      · rw [e1, wsOk, Bool.and_eq_true]
        exact ⟨by simp [hwf], ih.1⟩
      · rw [e1, headNotWs]
        simp [hwf]

lemma wsOk_dropWhile : ∀ y : PyStr, wsOk y = true → wsOk (y.dropWhile isWs) = true := by
  intro y
  induction y with
  | nil => intro h; exact h
  | cons c rest ih =>
    intro h
    rw [List.dropWhile_cons]
    split
    · exact ih (wsOk_tail c rest h)
    · exact h

lemma headNotWs_dropWhile : ∀ y : PyStr, headNotWs (y.dropWhile isWs) = true := by
  intro y
  induction y with
  | nil => rfl
  | cons c rest ih =>
    rw [List.dropWhile_cons]
    split
    · exact ih
    · rw [headNotWs]
      rename_i hc
      simpa using hc

lemma headNotWs_dropTrail :
    ∀ y : PyStr, headNotWs y = true → headNotWs (dropTrailWs y) = true := by
  intro y
  cases y with
  | nil => intro _; rfl
  | cons c rest =>
    intro h
    rw [headNotWs] at h
    rw [dropTrailWs]
    cases hdt : dropTrailWs rest with
    | nil =>
      dsimp only
      split
      · rfl
      · rw [headNotWs]
        exact h
    | cons d t =>
      dsimp only
      rw [headNotWs]
      exact h

lemma wsOk_dropTrail : ∀ y : PyStr, wsOk y = true → wsOk (dropTrailWs y) = true := by
  intro y
  induction y with
  | nil => intro _; rfl
  | cons c rest ih =>
    intro h
    have hr := wsOk_tail c rest h
    rw [dropTrailWs]
    cases hdt : dropTrailWs rest with
    | nil =>
      dsimp only
      split
      · rfl
      · rw [wsOk]
        rename_i hc
        simp [hc, wsOk]
    | cons d t =>
      dsimp only
      rw [wsOk, Bool.and_eq_true]
      have hw2 := ih hr
      rw [hdt] at hw2
      refine ⟨?_, hw2⟩
      rw [wsOk, Bool.and_eq_true] at h
      by_cases hwc : isWs c = true
      · have h3 : (c == ' ' && headNotWs rest) = true := by
          simpa [hwc] using h.1
        rw [Bool.and_eq_true] at h3
        have hhead := headNotWs_dropTrail rest h3.2
        rw [hdt] at hhead
        rw [Bool.or_eq_true]
        right
        rw [Bool.and_eq_true]
        exact ⟨h3.1, hhead⟩
      · rw [Bool.or_eq_true]
        left
        simpa using hwc

lemma dropTrailWs_idem : ∀ y : PyStr, dropTrailWs (dropTrailWs y) = dropTrailWs y := by
  intro y
  induction y with
  | nil => rfl
  | cons c rest ih =>
    rw [dropTrailWs]
    cases hdt : dropTrailWs rest with
    | nil =>
      dsimp only
      split
      · rfl
      · rw [dropTrailWs]
        rename_i hc
        rw [show dropTrailWs ([] : PyStr) = [] from rfl]
        dsimp only
        rw [if_neg hc]
    | cons d t =>
      dsimp only
      rw [dropTrailWs]
      rw [hdt] at ih
      rw [ih]

lemma headNotWs_dropWhile_self :
    ∀ y : PyStr, headNotWs y = true → y.dropWhile isWs = y := by
  intro y
  cases y with
  | nil => intro _; rfl
  | cons c rest =>
    intro h
    rw [headNotWs] at h
    have h2 : isWs c = false := by simpa using h
    simp [List.dropWhile_cons, h2]

lemma pyStrip_collapse_fixpoint (m : PyStr) :
    pyStrip (collapseWs (pyStrip (collapseWs m))) = pyStrip (collapseWs m) := by
  have hwsOk : wsOk (pyStrip (collapseWs m)) = true := by
    rw [pyStrip, collapseWs]
    exact wsOk_dropTrail _ (wsOk_dropWhile _ (collapseGo_wsOk m).1)
  have hhead : headNotWs (pyStrip (collapseWs m)) = true := by
    rw [pyStrip]
    exact headNotWs_dropTrail _ (headNotWs_dropWhile _)
  rw [show collapseWs (pyStrip (collapseWs m)) = pyStrip (collapseWs m) from
    collapseGo_false_eq_self _ hwsOk]
  rw [show pyStrip (pyStrip (collapseWs m))
      = dropTrailWs (pyStrip (collapseWs m)) from by
    rw [pyStrip, headNotWs_dropWhile_self _ hhead]]
  rw [show pyStrip (collapseWs m)
      = dropTrailWs ((collapseWs m).dropWhile isWs) from rfl]
  exact dropTrailWs_idem _

/-- C8 counterexample: normalization is not idempotent — a deletion key can
splice a new key occurrence: `clean_stop_name("BBOO")` removes the inner
`"BO"` leaving `"BO"`, and a second application removes that too. -/
theorem c8_counterexample :
    ProcessRoutes.clean_stop_name (ProcessRoutes.clean_stop_name "BBOO".toList)
      ≠ ProcessRoutes.clean_stop_name "BBOO".toList := by decide

/-- C8 (amended): normalization is idempotent on every input whose cleaned
name contains no occurrence of any correction key — this holds for both
`clean_stop_name` variants (`process_routes.py` and `data-cleaning.py`).  In
general idempotence fails (see the counterexample): a deletion key may splice
together a new key occurrence. -/
theorem c8_idempotent_amended (s : PyStr) :
    ((ProcessRoutes.corrections.all
        (fun p => !containsSub p.1 (ProcessRoutes.clean_stop_name s))) = true →
      ProcessRoutes.clean_stop_name (ProcessRoutes.clean_stop_name s)
        = ProcessRoutes.clean_stop_name s)
    ∧ ((DataCleaning.corrections.all
        (fun p => !containsSub p.1 (DataCleaning.clean_stop_name s))) = true →
      DataCleaning.clean_stop_name (DataCleaning.clean_stop_name s)
        = DataCleaning.clean_stop_name s) := by
  constructor
  · intro h
    have hkeys : ∀ p ∈ ProcessRoutes.corrections,
        containsSub p.1 (ProcessRoutes.clean_stop_name s) = false := by
      intro p hp
      simpa using List.all_eq_true.mp h p hp
    rw [show ProcessRoutes.clean_stop_name (ProcessRoutes.clean_stop_name s)
        = pyStrip (collapseWs (ProcessRoutes.corrections.foldl
            (fun m p => pyReplace p.1 p.2 m) (ProcessRoutes.clean_stop_name s))) from rfl]
    rw [foldl_replace_of_not_contains _ _ hkeys]
    rw [show ProcessRoutes.clean_stop_name s
        = pyStrip (collapseWs (ProcessRoutes.corrections.foldl
            (fun m p => pyReplace p.1 p.2 m) s)) from rfl]
    exact pyStrip_collapse_fixpoint _
  · intro h
    have hkeys : ∀ p ∈ DataCleaning.corrections,
        containsSub p.1 (DataCleaning.clean_stop_name s) = false := by
      intro p hp
      simpa using List.all_eq_true.mp h p hp
    rw [show DataCleaning.clean_stop_name (DataCleaning.clean_stop_name s)
        = DataCleaning.corrections.foldl (fun m p => pyReplace p.1 p.2 m)
            (DataCleaning.clean_stop_name s) from rfl]
    exact foldl_replace_of_not_contains _ _ hkeys

theorem c8_witness :
    ((ProcessRoutes.corrections.all
        (fun p => !containsSub p.1 (ProcessRoutes.clean_stop_name "Bae x".toList))) = true
      ∧ ProcessRoutes.clean_stop_name (ProcessRoutes.clean_stop_name "Bae x".toList)
          = ProcessRoutes.clean_stop_name "Bae x".toList)
    ∧ ((DataCleaning.corrections.all
        (fun p => !containsSub p.1 (DataCleaning.clean_stop_name "Bae x".toList))) = true
      ∧ DataCleaning.clean_stop_name (DataCleaning.clean_stop_name "Bae x".toList)
          = DataCleaning.clean_stop_name "Bae x".toList) :=
  ⟨⟨by decide, (c8_idempotent_amended "Bae x".toList).1 (by decide)⟩,
   ⟨by decide, (c8_idempotent_amended "Bae x".toList).2 (by decide)⟩⟩
